import Mathlib

/-!
Verification of the minute-level OHLCV aggregation implemented by
`UniswapV3PoolAPI.generate_minute_ohlcv` in
`src/data/uniswap/uniswapv3-pool-data-api.py`.

The embedding mirrors the pandas pipeline:
* swap records are untyped mappings, so each numeric field of a record is
  modelled as a `FieldVal`: absent from the record, present-but-null,
  present-but-unparseable (a string that the coercing `pd.to_numeric`
  turns into NaN), or a parsed number;
* NaN cells are modelled as `none : Option Rat`;
* `df.timestamp.astype int` raises on a missing/null/unparseable entry, so
  timestamp extraction returns `Except`;
* the price branch is column-level: the `sqrtPriceX96` path is taken when the
  column exists and is not entirely null, otherwise the amount-ratio path
  when both amount columns exist, otherwise the function returns `None`;
* `resample` over one-minute bins: rows are stably sorted by timestamp
  (pandas sorts a non-monotonic index with a stable mergesort), bins run
  from the first to the last populated minute, `first`/`last`/`max`/`min`
  skip NaN, `sum` of an empty/all-NaN bin is `0`, `count` counts non-NaN;
* `fillna` with forward fill acts on each column independently.
-/

set_option maxHeartbeats 1000000

namespace UniswapOHLCV

/-- One field of an untyped swap record: missing key, JSON null, present but
not parseable as a number, or a parsed numeric value. -/
inductive FieldVal (α : Type) where
  | absent : FieldVal α
  | null : FieldVal α
  | invalid : FieldVal α
  | val : α → FieldVal α
deriving DecidableEq

/-- A raw swap record, restricted to the fields `generate_minute_ohlcv`
reads: `timestamp`, `amountUSD`, `sqrtPriceX96`, `amount0`, `amount1`. -/
structure TradeEvent where
  timestamp : FieldVal Int
  amountUSD : FieldVal Rat
  sqrtPriceX96 : FieldVal Rat
  amount0 : FieldVal Rat
  amount1 : FieldVal Rat
deriving DecidableEq

/-- Token decimal counts from `pool_info` (`token0.decimals`,
`token1.decimals`); the whole record may be missing, which the code models
by skipping the decimal adjustment. -/
structure PoolInfo where
  token0Decimals : Int
  token1Decimals : Int
deriving DecidableEq

/-- An intermediate dataframe row after timestamp coercion and the price /
amountUSD `to_numeric` conversions: `none` is a NaN cell. -/
structure Row where
  ts : Int
  price : Option Rat
  usd : Option Rat
deriving DecidableEq

/-- One output row of the OHLCV dataframe.  Price cells may be NaN
(e.g. for leading buckets with no derivable price), hence `Option Rat`;
`volume` and `tradeCount` are never NaN. -/
structure Candle where
  bucketStart : Int
  open_ : Option Rat
  high : Option Rat
  low : Option Rat
  close : Option Rat
  volume : Rat
  tradeCount : Nat
deriving DecidableEq

/-- The coercing `pd.to_numeric` on one cell: only a parsed
value survives, everything else becomes NaN. -/
def toNum : FieldVal Rat → Option Rat
  | .val q => some q
  | _ => none

/-- A cell makes its column exist in the dataframe iff the key is present in
the record (even with a null value). -/
def fieldPresent {α : Type} : FieldVal α → Bool
  | .absent => false
  | _ => true

/-- `notnull` on one cell: a present non-null value (a string counts, even
if it does not parse as a number). -/
def fieldNonNull {α : Type} : FieldVal α → Bool
  | .invalid => true
  | .val _ => true
  | _ => false

/-- `timestamp in df.columns`. -/
def hasTimestampCol (events : List TradeEvent) : Bool :=
  events.any fun e => fieldPresent e.timestamp

/-- `amountUSD in df.columns`. -/
def hasAmountUSDCol (events : List TradeEvent) : Bool :=
  events.any fun e => fieldPresent e.amountUSD

/-- `amount0 in df.columns`. -/
def hasAmount0Col (events : List TradeEvent) : Bool :=
  events.any fun e => fieldPresent e.amount0

/-- `amount1 in df.columns`. -/
def hasAmount1Col (events : List TradeEvent) : Bool :=
  events.any fun e => fieldPresent e.amount1

/-- The branch guard `sqrtPriceX96 in df.columns and not
df.sqrtPriceX96.isnull().all()`: some record carries a non-null
`sqrtPriceX96` cell. -/
def sqrtAvail (events : List TradeEvent) : Bool :=
  events.any fun e => fieldNonNull e.sqrtPriceX96

/-- `10 ** (token1_decimals - token0_decimals)`; when `pool_info` (or its
token entries) is missing the code skips the multiplication, which equals
multiplying by `1`. -/
def decimalAdj : Option PoolInfo → Rat
  | some p => (10 : Rat) ^ (p.token1Decimals - p.token0Decimals)
  | none => 1

/-- Price of one row on the `sqrtPriceX96` branch:
`(to_numeric(sqrtPriceX96) / 2**96) ** 2 * adjustment`, NaN cells
propagating to a NaN price. -/
def sqrtPriceOf (pool : Option PoolInfo) (e : TradeEvent) : Option Rat :=
  match e.sqrtPriceX96 with
  | .val q => some ((q / 2 ^ 96) ^ 2 * decimalAdj pool)
  | _ => none

/-- Price of one row on the amount-ratio branch: rows with `amount0 != 0`
(in pandas a NaN `amount0` also satisfies that mask, but then the quotient
is NaN) get `abs amount1 / abs amount0`; rows with `amount0 = 0` keep a NaN
price. -/
def ratioPriceOf (e : TradeEvent) : Option Rat :=
  match toNum e.amount0 with
  | some a0 => if a0 = 0 then none else (toNum e.amount1).map fun a1 => |a1| / |a0|
  | none => none

/-- The price column.  The branch is chosen once for the whole dataframe:
the `sqrtPriceX96` formula whenever some record has a non-null
`sqrtPriceX96`, else the amount ratio when both amount columns exist, else
there is no price information and the function returns `None`. -/
def priceColumn (events : List TradeEvent) (pool : Option PoolInfo) :
    Option (List (Option Rat)) :=
  if sqrtAvail events then some (events.map (sqrtPriceOf pool))
  else if hasAmount0Col events && hasAmount1Col events then
    some (events.map ratioPriceOf)
  else none

/-- The fault raised by `df.timestamp.astype int` on a missing, null or
unparseable timestamp cell. -/
inductive AggError where
  | badTimestamp : AggError
deriving DecidableEq

instance {ε α : Type} [DecidableEq ε] [DecidableEq α] : DecidableEq (Except ε α) := fun a b =>
  match a, b with
  | .ok x, .ok y => decidable_of_iff (x = y) (by simp)
  | .error x, .error y => decidable_of_iff (x = y) (by simp)
  | .ok _, .error _ => .isFalse (by simp)
  | .error _, .ok _ => .isFalse (by simp)

/-- `astype int` on one timestamp cell. -/
def parseTs : FieldVal Int → Except AggError Int
  | .val t => .ok t
  | _ => .error .badTimestamp

/-- `df.timestamp.astype int` over the column: raises if any cell fails. -/
def parsedTs : List TradeEvent → Except AggError (List Int)
  | [] => .ok []
  | e :: es =>
    match parseTs e.timestamp with
    | .error err => .error err
    | .ok t =>
      match parsedTs es with
      | .error err => .error err
      | .ok ts => .ok (t :: ts)

/-- Total extractor for an event's timestamp, meaningful once `parsedTs`
succeeded. -/
def tsVal (e : TradeEvent) : Int :=
  match e.timestamp with
  | .val t => t
  | _ => 0

/-- Truncation of a timestamp to its one-minute bucket (resample bins are
left-closed and left-labelled). -/
def minuteFloor (t : Int) : Int := t - t % 60

/-- Stitch the coerced timestamp, price and amountUSD columns back into
rows. -/
def zipRows : List Int → List (Option Rat) → List (Option Rat) → List Row
  | t :: ts, p :: ps, u :: us => ⟨t, p, u⟩ :: zipRows ts ps us
  | _, _, _ => []

/-- Pandas sorts a non-monotonic datetime index with a stable sort before
binning; timestamp order, ties kept in input order. -/
def rowLE (a b : Row) : Prop := a.ts ≤ b.ts

instance : DecidableRel rowLE := fun a b => inferInstanceAs (Decidable (a.ts ≤ b.ts))

instance : IsTotal Row rowLE := ⟨fun a b => Int.le_total a.ts b.ts⟩

instance : IsTrans Row rowLE := ⟨fun _ _ _ h1 h2 => le_trans h1 h2⟩

/-- The stable sort by timestamp performed by the resampler. -/
def sortRows (rows : List Row) : List Row := List.insertionSort rowLE rows

/-- The minute bucket of every row. -/
def bucketMinutes (rows : List Row) : List Int :=
  rows.map fun r => minuteFloor r.ts

/-- The resample bin labels: every minute from the first populated bucket
to the last, inclusive. -/
def bucketList (rows : List Row) : List Int :=
  match (bucketMinutes rows).min?, (bucketMinutes rows).max? with
  | some b0, some b1 =>
      (List.range (((b1 - b0) / 60).toNat + 1)).map fun (i : Nat) => b0 + 60 * (i : Int)
  | _, _ => []

/-- The rows falling into bucket `b`, in their current order. -/
def bucketRows (rows : List Row) (b : Int) : List Row :=
  rows.filter fun r => minuteFloor r.ts == b

/-- One pre-fill output row for bucket `b`: `first`/`max`/`min`/`last` over
the non-NaN prices of the bin, `sum`/`count` over the non-NaN amountUSD
cells (an empty or all-NaN bin sums to `0` and counts `0`). -/
def mkCandle (rows : List Row) (b : Int) : Candle :=
  let ps := (bucketRows rows b).filterMap fun r => r.price
  let us := (bucketRows rows b).filterMap fun r => r.usd
  { bucketStart := b
    open_ := ps.head?
    high := ps.max?
    low := ps.min?
    close := ps.getLast?
    volume := us.sum
    tradeCount := us.length }

/-- One cell of the forward `fillna`: keep a present value, otherwise
the last seen value of the same column. -/
def fillField (x acc : Option Rat) : Option Rat :=
  match x with
  | some v => some v
  | none => acc

/-- The per-column forward-fill accumulator: last seen open, high, low,
close cells. -/
structure FillState where
  ao : Option Rat
  ah : Option Rat
  al : Option Rat
  ac : Option Rat
deriving DecidableEq

/-- Forward-fill one output row against the accumulated last seen values,
column by column. -/
def fillCandle (c : Candle) (acc : FillState) : Candle :=
  { c with
    open_ := fillField c.open_ acc.ao
    high := fillField c.high acc.ah
    low := fillField c.low acc.al
    close := fillField c.close acc.ac }

/-- The four price cells of an output row, as a fill accumulator. -/
def stateOf (c : Candle) : FillState :=
  ⟨c.open_, c.high, c.low, c.close⟩

/-- The forward `fillna` over the four price columns (volume and count
are never NaN, so the fill leaves them unchanged). -/
def ffillCandles : FillState → List Candle → List Candle
  | _, [] => []
  | acc, c :: cs =>
      fillCandle c acc :: ffillCandles (stateOf (fillCandle c acc)) cs

/-- Resample + aggregate + forward fill. -/
def buildCandles (rows : List Row) : List Candle :=
  ffillCandles ⟨none, none, none, none⟩
    ((bucketList (sortRows rows)).map (mkCandle (sortRows rows)))

/-- `UniswapV3PoolAPI.generate_minute_ohlcv`: `Except.error` models a raised
fault, `Except.ok none` the explicit `None` result, `Except.ok (some cs)`
the returned dataframe. -/
def generate_minute_ohlcv (events : List TradeEvent) (pool : Option PoolInfo) :
    Except AggError (Option (List Candle)) :=
  if events.isEmpty then .ok none
  else if !hasTimestampCol events || !hasAmountUSDCol events then .ok none
  else
    match parsedTs events with
    | .error e => .error e
    | .ok ts =>
      match priceColumn events pool with
      | none => .ok none
      | some prices =>
          let usds := events.map fun e => toNum e.amountUSD
          .ok (some (buildCandles (zipRows ts prices usds)))

/-- Convenience accessor for stating concrete counterexamples: the `i`-th
candle of a successful, non-empty result. -/
def nthCandle (r : Except AggError (Option (List Candle))) (i : Nat) :
    Option Candle :=
  match r with
  | .ok (some cs) => cs.get? i
  | _ => none

/-- The dataframe row produced from one event, given the per-event price
function of the selected branch (meaningful once `parsedTs` succeeded). -/
def rowOf (pr : TradeEvent → Option Rat) (e : TradeEvent) : Row :=
  ⟨tsVal e, pr e, toNum e.amountUSD⟩

/-- The OHLC ordering invariant over a fill accumulator: whenever all four
price cells are present, `low ≤ open ≤ high` and `low ≤ close ≤ high`. -/
def StateOrdered (st : FillState) : Prop :=
  ∀ ov hv lv cv, st.ao = some ov → st.ah = some hv → st.al = some lv →
    st.ac = some cv → lv ≤ ov ∧ ov ≤ hv ∧ lv ≤ cv ∧ cv ≤ hv

/-- The four price cells of a fill accumulator are either all NaN or all
present (true of every pre-fill output row, since all four aggregations
skip NaN over the same price cells). -/
def AllOrNone (st : FillState) : Prop :=
  (st.ao = none ∧ st.ah = none ∧ st.al = none ∧ st.ac = none) ∨
  (st.ao.isSome ∧ st.ah.isSome ∧ st.al.isSome ∧ st.ac.isSome)

/-- The OHLC ordering invariant over an output row. -/
def CandleOrdered (c : Candle) : Prop :=
  StateOrdered (stateOf c)

/-- Concrete input: scenario A of the spec, one trade at `t = 0` with
`amountUSD = 100`, `amount0 = 10`, `amount1 = 2000`, no `sqrtPriceX96`. -/
def exScenarioA : List TradeEvent :=
  [⟨.val 0, .val 100, .absent, .val 10, .val 2000⟩]

/-- Concrete input: two trades in minute 0 at prices 100 and 110, one trade
in minute 2 at price 90, leaving minute 1 as a gap (scenario B of the
spec). -/
def exGap : List TradeEvent :=
  [⟨.val 0, .val 50, .absent, .val 1, .val 100⟩,
   ⟨.val 30, .val 70, .absent, .val 1, .val 110⟩,
   ⟨.val 120, .val 30, .absent, .val 1, .val 90⟩]

/-- Concrete input: the first trade carries `sqrtPriceX96 = 2 ^ 96`
(price 1); the second carries no `sqrtPriceX96` but has
`amount0 = 10`, `amount1 = 2000` (ratio 200). -/
def exBranch : List TradeEvent :=
  [⟨.val 0, .val 5, .val (2 ^ 96), .absent, .absent⟩,
   ⟨.val 60, .val 7, .absent, .val 10, .val 2000⟩]

/-- Concrete input: a single trade whose `sqrtPriceX96` is present but does
not parse as a number, and which has no amount fields, so no price is
derivable for any event of the set. -/
def exNoPrice : List TradeEvent :=
  [⟨.val 0, .val 100, .invalid, .absent, .absent⟩]

/-- Concrete input: a priced trade and a trade with no price information in
the same minute. -/
def exPriceless : List TradeEvent :=
  [⟨.val 0, .val 50, .absent, .val 1, .val 100⟩,
   ⟨.val 30, .val 70, .absent, .absent, .absent⟩]

/-- Concrete input: a single trade with a negative `amountUSD`. -/
def exNegUsd : List TradeEvent :=
  [⟨.val 0, .val (-50), .absent, .val 1, .val 100⟩]

/-- Concrete input: two trades with the same timestamp and different
prices, in one order. -/
def exTie1 : List TradeEvent :=
  [⟨.val 0, .val 1, .absent, .val 1, .val 100⟩,
   ⟨.val 0, .val 1, .absent, .val 1, .val 110⟩]

/-- The same two trades as `exTie1`, presented in the other order. -/
def exTie2 : List TradeEvent :=
  [⟨.val 0, .val 1, .absent, .val 1, .val 110⟩,
   ⟨.val 0, .val 1, .absent, .val 1, .val 100⟩]

/-- Concrete input: a well-formed trade plus a trade whose record has no
`timestamp` key. -/
def exBadTs : List TradeEvent :=
  [⟨.val 0, .val 50, .absent, .val 1, .val 100⟩,
   ⟨.absent, .val 70, .absent, .val 1, .val 110⟩]

/-- Concrete input: a well-formed trade plus a trade whose record has no
`amountUSD` key but a derivable price. -/
def exNoUsd : List TradeEvent :=
  [⟨.val 0, .val 50, .absent, .val 1, .val 100⟩,
   ⟨.val 30, .absent, .absent, .val 1, .val 110⟩]

/-- Concrete input: two trades with distinct timestamps, used to witness
order-independence. -/
def exPerm1 : List TradeEvent :=
  [⟨.val 70, .val 3, .absent, .val 1, .val 130⟩,
   ⟨.val 10, .val 2, .absent, .val 1, .val 120⟩]

/-- The same two trades as `exPerm1`, presented in the other order. -/
def exPerm2 : List TradeEvent :=
  [⟨.val 10, .val 2, .absent, .val 1, .val 120⟩,
   ⟨.val 70, .val 3, .absent, .val 1, .val 130⟩]

lemma min?_le_of_mem {α : Type} [LinearOrder α] {l : List α} {a b : α}
    (h : l.min? = some a) (hb : b ∈ l) : a ≤ b := by
  haveI : Std.Antisymm ((· : α) ≤ ·) := ⟨fun h1 h2 => le_antisymm h1 h2⟩
  exact ((List.min?_eq_some_iff (fun x => le_refl x) min_choice
    (fun _ _ _ => le_min_iff)).1 h).2 b hb

lemma mem_of_min? {α : Type} [LinearOrder α] {l : List α} {a : α}
    (h : l.min? = some a) : a ∈ l :=
  List.min?_mem min_choice h

lemma le_max?_of_mem {α : Type} [LinearOrder α] {l : List α} {a b : α}
    (h : l.max? = some a) (hb : b ∈ l) : b ≤ a := by
  haveI : Std.Antisymm ((· : α) ≤ ·) := ⟨fun h1 h2 => le_antisymm h1 h2⟩
  exact ((List.max?_eq_some_iff (fun x => le_refl x) max_choice
    (fun _ _ _ => max_le_iff)).1 h).2 b hb

lemma mem_of_max? {α : Type} [LinearOrder α] {l : List α} {a : α}
    (h : l.max? = some a) : a ∈ l :=
  List.max?_mem max_choice h

lemma min?_congr_perm {α : Type} [LinearOrder α] {l₁ l₂ : List α}
    (h : l₁.Perm l₂) : l₁.min? = l₂.min? := by
  haveI : Std.Antisymm ((· : α) ≤ ·) := ⟨fun h1 h2 => le_antisymm h1 h2⟩
  cases h1 : l₁.min? with
  | none =>
      have : l₁ = [] := List.min?_eq_none_iff.1 h1
      subst this
      rw [h.symm.eq_nil]
      rfl
  | some a =>
      symm
      rw [List.min?_eq_some_iff (fun x => le_refl x) min_choice
        (fun _ _ _ => le_min_iff)]
      exact ⟨h.mem_iff.1 (mem_of_min? h1),
        fun b hb => min?_le_of_mem h1 (h.mem_iff.2 hb)⟩

lemma max?_congr_perm {α : Type} [LinearOrder α] {l₁ l₂ : List α}
    (h : l₁.Perm l₂) : l₁.max? = l₂.max? := by
  haveI : Std.Antisymm ((· : α) ≤ ·) := ⟨fun h1 h2 => le_antisymm h1 h2⟩
  cases h1 : l₁.max? with
  | none =>
      have : l₁ = [] := List.max?_eq_none_iff.1 h1
      subst this
      rw [h.symm.eq_nil]
      rfl
  | some a =>
      symm
      rw [List.max?_eq_some_iff (fun x => le_refl x) max_choice
        (fun _ _ _ => max_le_iff)]
      exact ⟨h.mem_iff.1 (mem_of_max? h1),
        fun b hb => le_max?_of_mem h1 (h.mem_iff.2 hb)⟩

lemma parsedTs_ok {events : List TradeEvent} {ts : List Int}
    (h : parsedTs events = .ok ts) :
    ts = events.map tsVal ∧ ∀ e ∈ events, ∃ t, e.timestamp = FieldVal.val t := by
  induction events generalizing ts with
  | nil =>
      simp only [parsedTs] at h
      cases h
      simp
  | cons e es ih =>
      simp only [parsedTs] at h
      cases he : parseTs e.timestamp with
      | error err => rw [he] at h; cases h
      | ok t =>
          rw [he] at h
          cases hr : parsedTs es with
          | error err => rw [hr] at h; cases h
          | ok ts' =>
              rw [hr] at h
              cases h
              obtain ⟨h1, h2⟩ := ih hr
              have hval : e.timestamp = FieldVal.val t := by
                cases hts : e.timestamp <;> simp [parseTs, hts] at he <;> simp [he]
              constructor
              · simp [h1, tsVal, hval]
              · intro e' he'
                rcases List.mem_cons.1 he' with rfl | hmem
                · exact ⟨t, hval⟩
                · exact h2 e' hmem

lemma parsedTs_of_val {events : List TradeEvent}
    (h : ∀ e ∈ events, ∃ t, e.timestamp = FieldVal.val t) :
    parsedTs events = .ok (events.map tsVal) := by
  induction events with
  | nil => rfl
  | cons e es ih =>
      obtain ⟨t, ht⟩ := h e (List.mem_cons_self _ _)
      simp only [parsedTs, parseTs, ht, ih (fun e' he' => h e' (List.mem_cons_of_mem _ he')),
        List.map_cons, tsVal]

lemma parsedTs_error {events : List TradeEvent}
    (h : ∃ e ∈ events, ∀ t, e.timestamp ≠ FieldVal.val t) :
    parsedTs events = .error .badTimestamp := by
  induction events with
  | nil => simp at h
  | cons e es ih =>
      obtain ⟨e', he', hbad⟩ := h
      rcases List.mem_cons.1 he' with rfl | hmem
      · cases hts : e'.timestamp with
        | val t => exact absurd hts (hbad t)
        | absent => simp [parsedTs, parseTs, hts]
        | null => simp [parsedTs, parseTs, hts]
        | invalid => simp [parsedTs, parseTs, hts]
      · cases hts : e.timestamp with
        | val t => simp [parsedTs, parseTs, hts, ih ⟨e', hmem, hbad⟩]
        | absent => simp [parsedTs, parseTs, hts]
        | null => simp [parsedTs, parseTs, hts]
        | invalid => simp [parsedTs, parseTs, hts]

lemma zipRows_map (f : TradeEvent → Int) (g h' : TradeEvent → Option Rat)
    (l : List TradeEvent) :
    zipRows (l.map f) (l.map g) (l.map h') = l.map fun e => ⟨f e, g e, h' e⟩ := by
  induction l with
  | nil => rfl
  | cons e es ih => simp [zipRows, ih]

lemma priceColumn_eq_map {events : List TradeEvent} {pool : Option PoolInfo}
    {prices : List (Option Rat)} (h : priceColumn events pool = some prices) :
    ∃ pr, prices = events.map pr := by
  unfold priceColumn at h
  split at h
  · exact ⟨sqrtPriceOf pool, by cases h; rfl⟩
  split at h
  · exact ⟨ratioPriceOf, by cases h; rfl⟩
  · cases h

lemma gen_eq_some {events : List TradeEvent} {pool : Option PoolInfo}
    {cs : List Candle} (h : generate_minute_ohlcv events pool = .ok (some cs)) :
    ∃ ts prices, parsedTs events = .ok ts ∧ priceColumn events pool = some prices ∧
      cs = buildCandles (zipRows ts prices (events.map fun e => toNum e.amountUSD)) := by
  unfold generate_minute_ohlcv at h
  split at h
  · exact absurd h (by simp)
  split at h
  · exact absurd h (by simp)
  split at h
  · exact absurd h (by simp)
  rename_i ts hts
  split at h
  · exact absurd h (by simp)
  rename_i prices hprices
  refine ⟨ts, prices, hts, hprices, ?_⟩
  simpa using h.symm

lemma gen_rows {events : List TradeEvent} {pool : Option PoolInfo}
    {cs : List Candle} (h : generate_minute_ohlcv events pool = .ok (some cs)) :
    ∃ pr, parsedTs events = .ok (events.map tsVal) ∧
      cs = buildCandles (events.map (rowOf pr)) := by
  obtain ⟨ts, prices, hts, hprices, hcs⟩ := gen_eq_some h
  obtain ⟨hts', _⟩ := parsedTs_ok hts
  obtain ⟨pr, hpr⟩ := priceColumn_eq_map hprices
  refine ⟨pr, hts' ▸ hts, ?_⟩
  rw [hcs, hts', hpr, zipRows_map]
  rfl

lemma ffill_length (acc : FillState) (cs : List Candle) :
    (ffillCandles acc cs).length = cs.length := by
  induction cs generalizing acc with
  | nil => rfl
  | cons c cs ih => simp [ffillCandles, ih]

lemma fillCandle_bucketStart (c : Candle) (acc : FillState) :
    (fillCandle c acc).bucketStart = c.bucketStart := rfl

lemma fillCandle_volume (c : Candle) (acc : FillState) :
    (fillCandle c acc).volume = c.volume := rfl

lemma fillCandle_tradeCount (c : Candle) (acc : FillState) :
    (fillCandle c acc).tradeCount = c.tradeCount := rfl

lemma ffill_map_bucketStart (acc : FillState) (cs : List Candle) :
    (ffillCandles acc cs).map Candle.bucketStart = cs.map Candle.bucketStart := by
  induction cs generalizing acc with
  | nil => rfl
  | cons c cs ih => simp [ffillCandles, ih, fillCandle_bucketStart]

lemma ffill_mem_shape {acc : FillState} {cs : List Candle} {c' : Candle}
    (h : c' ∈ ffillCandles acc cs) :
    ∃ c ∈ cs, c'.bucketStart = c.bucketStart ∧ c'.volume = c.volume ∧
      c'.tradeCount = c.tradeCount := by
  induction cs generalizing acc with
  | nil => cases h
  | cons c cs ih =>
      rcases List.mem_cons.1 h with rfl | hmem
      · exact ⟨c, List.mem_cons_self _ _, rfl, rfl, rfl⟩
      · obtain ⟨d, hd, hprop⟩ := ih hmem
        exact ⟨d, List.mem_cons_of_mem _ hd, hprop⟩

lemma ffill_get_succ (acc : FillState) (cs : List Candle) (i : Nat)
    (h : i + 1 < cs.length) :
    (ffillCandles acc cs).get ⟨i + 1, by rw [ffill_length]; exact h⟩ =
      fillCandle (cs.get ⟨i + 1, h⟩)
        (stateOf ((ffillCandles acc cs).get ⟨i, by rw [ffill_length]; omega⟩)) := by
  induction cs generalizing acc i with
  | nil => simp at h
  | cons c cs ih =>
      cases cs with
      | nil => simp at h
      | cons d ds =>
          cases i with
          | zero => simp [ffillCandles]
          | succ j =>
              have hj : j + 1 < (d :: ds).length := by
                simpa using Nat.lt_of_succ_lt_succ h
              simpa [ffillCandles] using ih (stateOf (fillCandle c acc)) j hj

lemma mkCandle_of_no_rows {rows : List Row} {b : Int}
    (h : bucketRows rows b = []) :
    mkCandle rows b = ⟨b, none, none, none, none, 0, 0⟩ := by
  simp [mkCandle, h]

lemma bucketRows_eq_nil {rows : List Row} {b : Int}
    (h : ∀ r ∈ rows, minuteFloor r.ts ≠ b) : bucketRows rows b = [] := by
  simp only [bucketRows, List.filter_eq_nil_iff]
  intro r hr
  simpa using h r hr

lemma stateOf_mkCandle (rows : List Row) (b : Int) :
    stateOf (mkCandle rows b) =
      ⟨((bucketRows rows b).filterMap fun r => r.price).head?,
       ((bucketRows rows b).filterMap fun r => r.price).max?,
       ((bucketRows rows b).filterMap fun r => r.price).min?,
       ((bucketRows rows b).filterMap fun r => r.price).getLast?⟩ := rfl

lemma mkCandle_aon (rows : List Row) (b : Int) :
    AllOrNone (stateOf (mkCandle rows b)) := by
  rw [stateOf_mkCandle]
  cases hps : (bucketRows rows b).filterMap fun r => r.price with
  | nil => left; simp
  | cons p l =>
      right
      refine ⟨by simp, ?_, ?_, by simp [List.getLast?_concat]⟩
      · cases hm : (p :: l).max? with
        | none => exact absurd (List.max?_eq_none_iff.1 hm) (by simp)
        | some a => simp
      · cases hm : (p :: l).min? with
        | none => exact absurd (List.min?_eq_none_iff.1 hm) (by simp)
        | some a => simp

lemma mkCandle_ordered (rows : List Row) (b : Int) :
    CandleOrdered (mkCandle rows b) := by
  unfold CandleOrdered StateOrdered
  rw [stateOf_mkCandle]
  intro ov hv lv cv ho hh hl hc
  simp only at ho hh hl hc
  have hov : ov ∈ (bucketRows rows b).filterMap fun r => r.price :=
    List.mem_of_mem_head? (by simp [ho])
  have hcv : cv ∈ (bucketRows rows b).filterMap fun r => r.price := by
    obtain ⟨ys, hys⟩ := List.getLast?_eq_some_iff.1 hc
    rw [hys]
    simp
  exact ⟨min?_le_of_mem hl hov, le_max?_of_mem hh hov,
    min?_le_of_mem hl hcv, le_max?_of_mem hh hcv⟩

lemma stateOf_fillCandle (c : Candle) (acc : FillState)
    (h : AllOrNone (stateOf c)) :
    stateOf (fillCandle c acc) = stateOf c ∨ stateOf (fillCandle c acc) = acc := by
  rcases h with ⟨h1, h2, h3, h4⟩ | ⟨h1, h2, h3, h4⟩
  · right
    simp only [stateOf] at h1 h2 h3 h4
    simp [stateOf, fillCandle, fillField, h1, h2, h3, h4]
  · left
    obtain ⟨v1, hv1⟩ := Option.isSome_iff_exists.1 h1
    obtain ⟨v2, hv2⟩ := Option.isSome_iff_exists.1 h2
    obtain ⟨v3, hv3⟩ := Option.isSome_iff_exists.1 h3
    obtain ⟨v4, hv4⟩ := Option.isSome_iff_exists.1 h4
    simp only [stateOf] at hv1 hv2 hv3 hv4
    simp [stateOf, fillCandle, fillField, hv1, hv2, hv3, hv4]

lemma ffill_ordered {acc : FillState} {cs : List Candle}
    (hacc : StateOrdered acc) (haon : AllOrNone acc)
    (hcs : ∀ c ∈ cs, CandleOrdered c ∧ AllOrNone (stateOf c)) :
    ∀ c' ∈ ffillCandles acc cs, CandleOrdered c' := by
  induction cs generalizing acc with
  | nil => intro c' h; cases h
  | cons c cs ih =>
      intro c' h
      have hc := hcs c (List.mem_cons_self _ _)
      have hstep := stateOf_fillCandle c acc hc.2
      have hord : CandleOrdered (fillCandle c acc) := by
        unfold CandleOrdered
        rcases hstep with h1 | h1 <;> rw [h1]
        · exact hc.1
        · exact hacc
      have haon' : AllOrNone (stateOf (fillCandle c acc)) := by
        rcases hstep with h1 | h1 <;> rw [h1]
        · exact hc.2
        · exact haon
      rcases List.mem_cons.1 h with rfl | hmem
      · exact hord
      · exact @ih (stateOf (fillCandle c acc)) hord haon'
          (fun d hd => hcs d (List.mem_cons_of_mem _ hd)) c' hmem

lemma sortRows_perm (rows : List Row) : (sortRows rows).Perm rows :=
  List.perm_insertionSort _ _

lemma sortRows_sorted (rows : List Row) : List.Sorted rowLE (sortRows rows) :=
  List.sorted_insertionSort _ _

lemma sorted_unique_of_nodup_ts {l₁ l₂ : List Row} (hp : l₁.Perm l₂)
    (hs₁ : List.Sorted rowLE l₁) (hs₂ : List.Sorted rowLE l₂)
    (hnd : (l₁.map Row.ts).Nodup) : l₁ = l₂ := by
  haveI : IsAntisymm Row (fun a b => a.ts < b.ts) :=
    ⟨fun a b h1 h2 => absurd (lt_trans h1 h2) (lt_irrefl _)⟩
  have hnd₂ : (l₂.map Row.ts).Nodup := ((hp.map Row.ts).nodup_iff).1 hnd
  have strict : ∀ {l : List Row}, List.Sorted rowLE l → (l.map Row.ts).Nodup →
      List.Pairwise (fun a b : Row => a.ts < b.ts) l := by
    intro l hs hn
    have hne : List.Pairwise (fun a b : Row => a.ts ≠ b.ts) l :=
      List.pairwise_map.1 hn
    exact (hs.and hne).imp fun h => lt_of_le_of_ne h.1 h.2
  exact List.eq_of_perm_of_sorted (r := fun a b : Row => a.ts < b.ts) hp
    (strict hs₁ hnd) (strict hs₂ hnd₂)

lemma sortRows_congr {r1 r2 : List Row} (hp : r1.Perm r2)
    (hnd : (r1.map Row.ts).Nodup) : sortRows r1 = sortRows r2 := by
  apply sorted_unique_of_nodup_ts
    ((sortRows_perm r1).trans (hp.trans (sortRows_perm r2).symm))
    (sortRows_sorted r1) (sortRows_sorted r2)
  exact (((sortRows_perm r1).map Row.ts).nodup_iff).2 hnd

lemma minuteFloor_mod (t : Int) : minuteFloor t % 60 = 0 := by
  unfold minuteFloor
  omega

lemma mod_of_mem_bucketMinutes {rows : List Row} {b : Int}
    (h : b ∈ bucketMinutes rows) : b % 60 = 0 := by
  obtain ⟨r, _, rfl⟩ := List.mem_map.1 h
  exact minuteFloor_mod _

lemma ffill_get?_succ (acc : FillState) (cs : List Candle) (i : Nat) :
    (ffillCandles acc cs).get? (i + 1) =
      ((ffillCandles acc cs).get? i).bind fun prev =>
        (cs.get? (i + 1)).map fun c => fillCandle c (stateOf prev) := by
  induction cs generalizing acc i with
  | nil => simp [ffillCandles]
  | cons c cs ih =>
      cases i with
      | zero =>
          cases cs with
          | nil => simp [ffillCandles]
          | cons d ds => simp [ffillCandles]
      | succ j => simpa [ffillCandles] using ih (stateOf (fillCandle c acc)) j

lemma buildCandles_gap {rows : List Row} {i : Nat} {prev next : Candle}
    (hprev : (buildCandles rows).get? i = some prev)
    (hnext : (buildCandles rows).get? (i + 1) = some next)
    (hgap : ∀ r ∈ rows, minuteFloor r.ts ≠ next.bucketStart) :
    next.volume = 0 ∧ next.tradeCount = 0 ∧ next.open_ = prev.open_ ∧
    next.high = prev.high ∧ next.low = prev.low ∧ next.close = prev.close := by
  have hB : buildCandles rows = ffillCandles ⟨none, none, none, none⟩
      ((bucketList (sortRows rows)).map (mkCandle (sortRows rows))) := rfl
  rw [hB] at hprev hnext
  have hq := ffill_get?_succ ⟨none, none, none, none⟩
    ((bucketList (sortRows rows)).map (mkCandle (sortRows rows))) i
  rw [hprev, hnext] at hq
  have hq2 : some next =
      (((bucketList (sortRows rows)).map (mkCandle (sortRows rows))).get? (i + 1)).map
        fun c => fillCandle c (stateOf prev) := hq
  cases hr : ((bucketList (sortRows rows)).map (mkCandle (sortRows rows))).get? (i + 1) with
  | none => rw [hr] at hq2; cases hq2
  | some raw =>
      rw [hr] at hq2
      simp only [Option.map_some'] at hq2
      have hnext_eq : next = fillCandle raw (stateOf prev) := by
        exact Option.some.inj hq2
      rw [List.get?_map] at hr
      cases hbq : (bucketList (sortRows rows)).get? (i + 1) with
      | none => rw [hbq] at hr; cases hr
      | some b =>
          rw [hbq] at hr
          simp only [Option.map_some'] at hr
          have hraw_eq : raw = mkCandle (sortRows rows) b := (Option.some.inj hr).symm
          have hbs : next.bucketStart = b := by
            rw [hnext_eq, hraw_eq]
            rfl
          have hempty : bucketRows (sortRows rows) b = [] := by
            apply bucketRows_eq_nil
            intro r hrr
            have : r ∈ rows := (sortRows_perm rows).mem_iff.1 hrr
            rw [← hbs]
            exact hgap r this
          have hgapc : raw = ⟨b, none, none, none, none, 0, 0⟩ := by
            rw [hraw_eq]
            exact mkCandle_of_no_rows hempty
          rw [hnext_eq, hgapc]
          simp [fillCandle, fillField, stateOf]

lemma any_congr_perm {α : Type} {l₁ l₂ : List α} (h : l₁.Perm l₂)
    (f : α → Bool) : l₁.any f = l₂.any f := by
  cases h1 : l₁.any f with
  | true =>
      rw [List.any_eq_true] at h1
      obtain ⟨a, ha, hfa⟩ := h1
      exact (List.any_eq_true.2 ⟨a, h.mem_iff.1 ha, hfa⟩).symm
  | false =>
      cases h2 : l₂.any f with
      | false => rfl
      | true =>
          rw [List.any_eq_true] at h2
          obtain ⟨a, ha, hfa⟩ := h2
          have := List.any_eq_true.2 ⟨a, h.mem_iff.2 ha, hfa⟩
          rw [h1] at this
          cases this

lemma gen_reduce {events : List TradeEvent} (pool : Option PoolInfo)
    (hne : events.isEmpty = false)
    (hT : hasTimestampCol events = true) (hU : hasAmountUSDCol events = true)
    (hts : parsedTs events = .ok (events.map tsVal)) :
    generate_minute_ohlcv events pool =
      match priceColumn events pool with
      | none => .ok none
      | some prices => .ok (some (buildCandles
          (zipRows (events.map tsVal) prices
            (events.map fun e => toNum e.amountUSD)))) := by
  unfold generate_minute_ohlcv
  rw [hts]
  simp [hne, hT, hU]

lemma buildCandles_congr {r1 r2 : List Row} (h : sortRows r1 = sortRows r2) :
    buildCandles r1 = buildCandles r2 := by
  unfold buildCandles
  rw [h]

/-- C9: on the single trade `{timestamp = 0, amountUSD = 100, amount0 = 10,
amount1 = 2000}` with no `sqrtPriceX96`, the aggregator produces exactly one
candle at bucket 0 with `open = high = low = close = 200`, `volume = 100`
and `tradeCount = 1`. -/
theorem C9_scenario_a :
    generate_minute_ohlcv exScenarioA none =
      .ok (some [⟨0, some 200, some 200, some 200, some 200, 100, 1⟩]) := by
  decide!

/-- C1 counterexample: on scenario B (trades at prices 100 and 110 in minute
0, a trade at price 90 in minute 2), the synthesized gap candle for minute 1
has `volume = 0` and `tradeCount = 0` but `open = 100` and `low = 100`,
where the previous candle's close is `110`: each column is forward-filled
separately, so the gap candle does not satisfy
`open = high = low = close = previous close`. -/
theorem C1_counterexample :
    nthCandle (generate_minute_ohlcv exGap none) 0 =
      some ⟨0, some 100, some 110, some 100, some 110, 120, 2⟩ ∧
    nthCandle (generate_minute_ohlcv exGap none) 1 =
      some ⟨60, some 100, some 110, some 100, some 110, 0, 0⟩ ∧
    (some (100 : Rat) : Option Rat) ≠ some 110 := by
  decide!

/-- C2 counterexample: when one trade carries `sqrtPriceX96 = 2 ^ 96`
(price 1) and a second trade in the next minute carries no `sqrtPriceX96`
but `amount0 = 10`, `amount1 = 2000`, the claimed per-event fallback would
price the second trade at `|2000| / |10| = 200`; the code instead takes the
`sqrtPriceX96` branch for the whole set, prices the second trade as NaN,
and its candle is forward-filled to price 1. -/
theorem C2_counterexample :
    nthCandle (generate_minute_ohlcv exBranch none) 1 =
      some ⟨60, some 1, some 1, some 1, some 1, 7, 1⟩ ∧
    (some (1 : Rat) : Option Rat) ≠ some (|(2000 : Rat)| / |(10 : Rat)|) := by
  decide!

/-- C4 counterexample: on a single trade whose `sqrtPriceX96` is present but
unparseable and which has no amount fields, no price can be derived for any
event, yet the aggregator returns a non-empty candle list (with NaN
prices), not an explicit empty result. -/
theorem C4_counterexample :
    generate_minute_ohlcv exNoPrice none =
      .ok (some [⟨0, none, none, none, none, 100, 1⟩]) ∧
    generate_minute_ohlcv exNoPrice none ≠ .ok none := by
  decide!

/-- C5 counterexample: a trade with no derivable price in the same minute as
a priced trade still contributes its `amountUSD` to `volume` (120, not 50)
and is counted in `tradeCount` (2, not 1), so it is not excluded
entirely. -/
theorem C5_counterexample :
    nthCandle (generate_minute_ohlcv exPriceless none) 0 =
      some ⟨0, some 100, some 100, some 100, some 100, 120, 2⟩ ∧
    (120 : Rat) ≠ 50 ∧ (2 : Nat) ≠ 1 := by
  decide!

/-- C6 counterexample: a single trade with `amountUSD = -50` produces a
candle with `volume = -50`, the plain sum, not the sum of magnitudes
`|-50| = 50`. -/
theorem C6_counterexample :
    nthCandle (generate_minute_ohlcv exNegUsd none) 0 =
      some ⟨0, some 100, some 100, some 100, some 100, -50, 1⟩ ∧
    (-50 : Rat) ≠ |(-50 : Rat)| := by
  decide!

/-- C7 counterexample: two trades with the same timestamp and different
prices yield different candles when their presentation order is swapped
(open/close follow input order on timestamp ties), so the output is not
invariant under permutation of the input collection. -/
theorem C7_counterexample :
    exTie1.Perm exTie2 ∧
    generate_minute_ohlcv exTie1 none ≠ generate_minute_ohlcv exTie2 none := by
  constructor
  · exact List.Perm.swap _ _ _
  · decide!

/-- C8 counterexample: a trade whose record has no `timestamp` key makes the
whole aggregation raise a fault instead of being dropped silently; and a
trade whose record has no `amountUSD` key is not dropped: its price 110
still enters `high` and `close` of its bucket. -/
theorem C8_counterexample :
    generate_minute_ohlcv exBadTs none = .error .badTimestamp ∧
    nthCandle (generate_minute_ohlcv exNoUsd none) 0 =
      some ⟨0, some 100, some 110, some 100, some 110, 50, 1⟩ := by
  decide!

/-- C4 (amended): the aggregator returns the explicit `None` result when the
input collection is empty, when no record carries a `timestamp` key, when no
record carries an `amountUSD` key, or when (timestamps all coercing) no
record has a non-null `sqrtPriceX96` and the two amount columns are not both
present.  (When a price branch is selected but yields no parseable price,
the result is instead a non-empty candle list with NaN prices, and a
non-coercible timestamp raises a fault — see the counterexample.) -/
theorem C4_empty_result_cases (events : List TradeEvent) (pool : Option PoolInfo) :
    (events = [] → generate_minute_ohlcv events pool = .ok none) ∧
    (hasTimestampCol events = false → generate_minute_ohlcv events pool = .ok none) ∧
    (hasAmountUSDCol events = false → generate_minute_ohlcv events pool = .ok none) ∧
    (∀ ts, parsedTs events = .ok ts → sqrtAvail events = false →
      (hasAmount0Col events && hasAmount1Col events) = false →
      generate_minute_ohlcv events pool = .ok none) := by
  refine ⟨?_, ?_, ?_, ?_⟩
  · intro h
    subst h
    rfl
  · intro h
    unfold generate_minute_ohlcv
    split
    · rfl
    · simp [h]
  · intro h
    unfold generate_minute_ohlcv
    split
    · rfl
    · simp [h]
  · intro ts hts h1 h2
    unfold generate_minute_ohlcv
    split
    · rfl
    split
    · rfl
    rw [hts]
    simp [priceColumn, h1, h2]

/-- C4 witness: the empty collection yields the explicit `None` result. -/
theorem C4_empty_result_cases_witness :
    generate_minute_ohlcv [] none = .ok none :=
  (C4_empty_result_cases [] none).1 rfl

/-- C8 (amended): an event whose `timestamp` is missing, null or
non-coercible is not dropped silently: whenever the input is non-empty, the
`timestamp` and `amountUSD` columns exist, and some event has no parseable
timestamp, the whole aggregation raises a fault.  (An event missing only
`amountUSD` is likewise not dropped: it still contributes its price — see
the counterexample.) -/
theorem C8_missing_timestamp_raises (events : List TradeEvent)
    (pool : Option PoolInfo) (h0 : events ≠ [])
    (h1 : hasTimestampCol events = true) (h2 : hasAmountUSDCol events = true)
    (e : TradeEvent) (he : e ∈ events)
    (hbad : ∀ t, e.timestamp ≠ FieldVal.val t) :
    generate_minute_ohlcv events pool = .error .badTimestamp := by
  have herr : parsedTs events = .error .badTimestamp := parsedTs_error ⟨e, he, hbad⟩
  unfold generate_minute_ohlcv
  split
  · rename_i hemp
    exact absurd (List.isEmpty_iff.1 hemp) h0
  split
  · rename_i hcol
    rw [h1, h2] at hcol
    simp at hcol
  rw [herr]

/-- C8 witness: on a concrete pair of one well-formed trade and one trade
with no `timestamp` key, the aggregation raises. -/
theorem C8_missing_timestamp_raises_witness :
    generate_minute_ohlcv exBadTs none = .error .badTimestamp :=
  C8_missing_timestamp_raises exBadTs none (by decide) (by decide) (by decide)
    ⟨.absent, .val 70, .absent, .val 1, .val 110⟩ (by decide)
    (fun _ h => nomatch h)

/-- C2 (amended): the price-derivation branch is chosen once for the whole
collection, not per event.  Rule (a) does hold per event: an event whose
`sqrtPriceX96` parses is priced `(v / 2^96)^2` rescaled by
`10^(token1Decimals - token0Decimals)` (the branch is then active for the
whole set).  Rule (b) holds for an event only when no event of the whole
collection has a non-null `sqrtPriceX96`: then an event with parseable
`amount0 ≠ 0` and `amount1` is priced `|amount1| / |amount0|`. -/
theorem C2_branch_priority (events : List TradeEvent) (pool : Option PoolInfo)
    (e : TradeEvent) (he : e ∈ events) :
    (∀ q, e.sqrtPriceX96 = FieldVal.val q →
      priceColumn events pool = some (events.map (sqrtPriceOf pool)) ∧
      sqrtPriceOf pool e = some ((q / 2 ^ 96) ^ 2 * decimalAdj pool)) ∧
    (sqrtAvail events = false →
      hasAmount0Col events = true → hasAmount1Col events = true →
      priceColumn events pool = some (events.map ratioPriceOf) ∧
      ∀ a0 a1, e.amount0 = FieldVal.val a0 → e.amount1 = FieldVal.val a1 →
        a0 ≠ 0 → ratioPriceOf e = some (|a1| / |a0|)) := by
  constructor
  · intro q hq
    have hav : sqrtAvail events = true := by
      unfold sqrtAvail
      rw [List.any_eq_true]
      exact ⟨e, he, by rw [hq]; rfl⟩
    exact ⟨by simp [priceColumn, hav], by simp [sqrtPriceOf, hq]⟩
  · intro hs h0 h1
    refine ⟨by simp [priceColumn, hs, h0, h1], ?_⟩
    intro a0 a1 ha0 ha1 hne
    simp [ratioPriceOf, toNum, ha0, ha1, hne]

/-- C2 witness: on the concrete mixed collection, the `sqrtPriceX96` branch
is selected for the whole set and prices the first trade by the encoded
formula. -/
theorem C2_branch_priority_witness :
    priceColumn exBranch none = some (exBranch.map (sqrtPriceOf none)) ∧
    sqrtPriceOf none ⟨.val 0, .val 5, .val (2 ^ 96), .absent, .absent⟩ =
      some ((((2 ^ 96 : Rat)) / 2 ^ 96) ^ 2 * decimalAdj none) :=
  (C2_branch_priority exBranch none
    ⟨.val 0, .val 5, .val (2 ^ 96), .absent, .absent⟩
    (List.mem_cons_self _ _)).1 (2 ^ 96) rfl

/-- C5 (amended): an event with no derivable price (a NaN price cell)
contributes to none of `open`, `high`, `low`, `close` of its bucket, but it
is not excluded entirely: its `amountUSD` (when coercible) is added to
`volume` and it is counted in `tradeCount`. -/
theorem C5_priceless_contribution (pre post : List Row) (r : Row) (b : Int)
    (hp : r.price = none) (hb : minuteFloor r.ts = b) :
    (mkCandle (pre ++ r :: post) b).open_ = (mkCandle (pre ++ post) b).open_ ∧
    (mkCandle (pre ++ r :: post) b).high = (mkCandle (pre ++ post) b).high ∧
    (mkCandle (pre ++ r :: post) b).low = (mkCandle (pre ++ post) b).low ∧
    (mkCandle (pre ++ r :: post) b).close = (mkCandle (pre ++ post) b).close ∧
    (mkCandle (pre ++ r :: post) b).volume =
      (mkCandle (pre ++ post) b).volume + r.usd.getD 0 ∧
    (mkCandle (pre ++ r :: post) b).tradeCount =
      (mkCandle (pre ++ post) b).tradeCount + (if r.usd.isSome then 1 else 0) := by
  have hfilter : bucketRows (pre ++ r :: post) b =
      bucketRows pre b ++ r :: bucketRows post b := by
    simp [bucketRows, List.filter_append, List.filter_cons, hb]
  have hfilter0 : bucketRows (pre ++ post) b =
      bucketRows pre b ++ bucketRows post b := by
    simp [bucketRows, List.filter_append]
  cases hu : r.usd with
  | none =>
      refine ⟨?_, ?_, ?_, ?_, ?_, ?_⟩ <;>
        simp [mkCandle, hfilter, hfilter0, List.filterMap_append,
          List.filterMap_cons, hp, hu]
  | some u =>
      refine ⟨?_, ?_, ?_, ?_, ?_, ?_⟩ <;>
        simp [mkCandle, hfilter, hfilter0, List.filterMap_append,
          List.filterMap_cons, hp, hu] <;> ring_nf <;> omega

/-- C5 witness: a single priceless row with `amountUSD = 70` in minute 0
leaves the OHLC cells untouched relative to the empty bucket and adds 70 to
volume and 1 to the count. -/
theorem C5_priceless_contribution_witness :
    (mkCandle ([] ++ ⟨30, none, some 70⟩ :: []) 0).open_ =
      (mkCandle ([] ++ []) 0).open_ ∧
    (mkCandle ([] ++ ⟨30, none, some 70⟩ :: []) 0).high =
      (mkCandle ([] ++ []) 0).high ∧
    (mkCandle ([] ++ ⟨30, none, some 70⟩ :: []) 0).low =
      (mkCandle ([] ++ []) 0).low ∧
    (mkCandle ([] ++ ⟨30, none, some 70⟩ :: []) 0).close =
      (mkCandle ([] ++ []) 0).close ∧
    (mkCandle ([] ++ ⟨30, none, some 70⟩ :: []) 0).volume =
      (mkCandle ([] ++ []) 0).volume + (some (70 : Rat)).getD 0 ∧
    (mkCandle ([] ++ ⟨30, none, some 70⟩ :: []) 0).tradeCount =
      (mkCandle ([] ++ []) 0).tradeCount +
        (if (some (70 : Rat)).isSome then 1 else 0) :=
  C5_priceless_contribution [] [] ⟨30, none, some 70⟩ 0 rfl (by decide)

/-- C10: every candle of a successful output, populated or gap-filled,
satisfies the OHLC ordering invariant: whenever its four price cells are
present, `low ≤ open ≤ high` and `low ≤ close ≤ high`. -/
theorem C10_ohlc_ordering (events : List TradeEvent) (pool : Option PoolInfo)
    (cs : List Candle) (h : generate_minute_ohlcv events pool = .ok (some cs))
    (c : Candle) (hc : c ∈ cs) (ov hv lv cv : Rat)
    (ho : c.open_ = some ov) (hh : c.high = some hv) (hl : c.low = some lv)
    (hcl : c.close = some cv) :
    lv ≤ ov ∧ ov ≤ hv ∧ lv ≤ cv ∧ cv ≤ hv := by
  obtain ⟨ts, prices, _, _, hcs⟩ := gen_eq_some h
  subst hcs
  unfold buildCandles at hc
  have hmain := @ffill_ordered ⟨none, none, none, none⟩ _
    (fun _ _ _ _ h1 _ _ _ => nomatch h1)
    (Or.inl ⟨rfl, rfl, rfl, rfl⟩)
    (fun d hd => by
      obtain ⟨b, _, rfl⟩ := List.mem_map.1 hd
      exact ⟨mkCandle_ordered _ _, mkCandle_aon _ _⟩)
    c hc
  exact hmain ov hv lv cv ho hh hl hcl

/-- C10 witness: the invariant holds for the first candle of the concrete
gap scenario. -/
theorem C10_ohlc_ordering_witness :
    (100 : Rat) ≤ 100 ∧ (100 : Rat) ≤ 110 ∧ (100 : Rat) ≤ 110 ∧
    (110 : Rat) ≤ 110 :=
  C10_ohlc_ordering exGap none
    [⟨0, some 100, some 110, some 100, some 110, 120, 2⟩,
     ⟨60, some 100, some 110, some 100, some 110, 0, 0⟩,
     ⟨120, some 90, some 90, some 90, some 90, 30, 1⟩]
    (by decide!)
    ⟨0, some 100, some 110, some 100, some 110, 120, 2⟩
    (List.mem_cons_self _ _) 100 110 100 110 rfl rfl rfl rfl

/-- C6 (amended): for every candle of a successful output, `volume` is the
plain signed sum of the coercible `amountUSD` values of the events whose
minute is the candle's bucket (no absolute value, NaN cells skipped), and
`tradeCount` counts exactly the events of the bucket whose `amountUSD`
coerces. -/
theorem C6_volume_count (events : List TradeEvent) (pool : Option PoolInfo)
    (cs : List Candle) (h : generate_minute_ohlcv events pool = .ok (some cs))
    (c : Candle) (hc : c ∈ cs) :
    c.volume = ((events.filter fun e => minuteFloor (tsVal e) == c.bucketStart).filterMap
      fun e => toNum e.amountUSD).sum ∧
    c.tradeCount = ((events.filter fun e => minuteFloor (tsVal e) == c.bucketStart).filterMap
      fun e => toNum e.amountUSD).length := by
  obtain ⟨pr, hts, hcs⟩ := gen_rows h
  subst hcs
  unfold buildCandles at hc
  obtain ⟨raw, hraw, hbs, hvol, hcnt⟩ := ffill_mem_shape hc
  obtain ⟨b, _, rfl⟩ := List.mem_map.1 hraw
  have hb : c.bucketStart = b := hbs
  have husd : ((bucketRows (sortRows (events.map (rowOf pr))) b).filterMap
        fun r => r.usd).Perm
      ((events.filter fun e => minuteFloor (tsVal e) == b).filterMap
        fun e => toNum e.amountUSD) := by
    have h1 : (bucketRows (sortRows (events.map (rowOf pr))) b).Perm
        (bucketRows (events.map (rowOf pr)) b) :=
      (sortRows_perm _).filter _
    have h2 : bucketRows (events.map (rowOf pr)) b =
        (events.filter fun e => minuteFloor (tsVal e) == b).map (rowOf pr) := by
      unfold bucketRows
      exact List.filter_map (rowOf pr) events
    have h3 : ((events.filter fun e => minuteFloor (tsVal e) == b).map
          (rowOf pr)).filterMap (fun r => r.usd) =
        (events.filter fun e => minuteFloor (tsVal e) == b).filterMap
          fun e => toNum e.amountUSD := by
      exact List.filterMap_map (rowOf pr) (fun r => r.usd) _
    calc ((bucketRows (sortRows (events.map (rowOf pr))) b).filterMap
            fun r => r.usd).Perm
          ((bucketRows (events.map (rowOf pr)) b).filterMap fun r => r.usd) :=
        h1.filterMap _
      _ = _ := by rw [h2, h3]
  constructor
  · rw [hvol, hb]
    exact husd.sum_eq
  · rw [hcnt, hb]
    exact husd.length_eq

/-- C6 witness: on scenario A the volume is the (here positive) sum 100 and
the count is 1. -/
theorem C6_volume_count_witness :
    (100 : Rat) =
      ((exScenarioA.filter fun e => minuteFloor (tsVal e) == (0 : Int)).filterMap
        fun e => toNum e.amountUSD).sum ∧
    (1 : Nat) =
      ((exScenarioA.filter fun e => minuteFloor (tsVal e) == (0 : Int)).filterMap
        fun e => toNum e.amountUSD).length :=
  C6_volume_count exScenarioA none
    [⟨0, some 200, some 200, some 200, some 200, 100, 1⟩] (by decide!)
    ⟨0, some 200, some 200, some 200, some 200, 100, 1⟩
    (List.mem_cons_self _ _)

/-- C1 (amended): a synthesized gap candle (one whose minute contains no
trade) has `volume = 0` and `tradeCount = 0`, and each of its price cells
equals the corresponding cell — open, high, low, close — of the immediately
preceding output candle; it does not set all four to the preceding close. -/
theorem C1_gap_forward_fill (events : List TradeEvent) (pool : Option PoolInfo)
    (ts : List Int) (cs : List Candle) (i : Nat) (prev next : Candle)
    (hts : parsedTs events = .ok ts)
    (h : generate_minute_ohlcv events pool = .ok (some cs))
    (hprev : cs.get? i = some prev) (hnext : cs.get? (i + 1) = some next)
    (hgap : ∀ t ∈ ts, minuteFloor t ≠ next.bucketStart) :
    next.volume = 0 ∧ next.tradeCount = 0 ∧ next.open_ = prev.open_ ∧
    next.high = prev.high ∧ next.low = prev.low ∧ next.close = prev.close := by
  obtain ⟨pr, hts2, hcs⟩ := gen_rows h
  have htsv : ts = events.map tsVal := by
    rw [hts] at hts2
    exact Except.ok.inj hts2
  subst hcs
  apply buildCandles_gap hprev hnext
  intro r hr
  obtain ⟨e, he, rfl⟩ := List.mem_map.1 hr
  have : tsVal e ∈ ts := by
    rw [htsv]
    exact List.mem_map.2 ⟨e, he, rfl⟩
  exact hgap (tsVal e) this

/-- C1 witness: in the concrete gap scenario, the minute-1 candle has zero
volume and count and copies each price field of the minute-0 candle. -/
theorem C1_gap_forward_fill_witness :
    (⟨60, some 100, some 110, some 100, some 110, 0, 0⟩ : Candle).volume = 0 ∧
    (⟨60, some 100, some 110, some 100, some 110, 0, 0⟩ : Candle).tradeCount = 0 ∧
    (⟨60, some 100, some 110, some 100, some 110, 0, 0⟩ : Candle).open_ =
      (⟨0, some 100, some 110, some 100, some 110, 120, 2⟩ : Candle).open_ ∧
    (⟨60, some 100, some 110, some 100, some 110, 0, 0⟩ : Candle).high =
      (⟨0, some 100, some 110, some 100, some 110, 120, 2⟩ : Candle).high ∧
    (⟨60, some 100, some 110, some 100, some 110, 0, 0⟩ : Candle).low =
      (⟨0, some 100, some 110, some 100, some 110, 120, 2⟩ : Candle).low ∧
    (⟨60, some 100, some 110, some 100, some 110, 0, 0⟩ : Candle).close =
      (⟨0, some 100, some 110, some 100, some 110, 120, 2⟩ : Candle).close :=
  C1_gap_forward_fill exGap none [0, 30, 120]
    [⟨0, some 100, some 110, some 100, some 110, 120, 2⟩,
     ⟨60, some 100, some 110, some 100, some 110, 0, 0⟩,
     ⟨120, some 90, some 90, some 90, some 90, 30, 1⟩] 0
    ⟨0, some 100, some 110, some 100, some 110, 120, 2⟩
    ⟨60, some 100, some 110, some 100, some 110, 0, 0⟩
    rfl (by decide!) rfl rfl (by decide)

/-- C3: on every successful output the candle sequence is strictly
ascending in `bucketStart`, and a minute appears (exactly once, by the
strict ascent) if and only if it is an aligned minute between the first and
the last populated bucket — no candle before the first or after the last
populated bucket. -/
theorem C3_bucket_range (events : List TradeEvent) (pool : Option PoolInfo)
    (ts : List Int) (cs : List Candle) (b0 b1 : Int)
    (hts : parsedTs events = .ok ts)
    (hb0 : (ts.map minuteFloor).min? = some b0)
    (hb1 : (ts.map minuteFloor).max? = some b1)
    (h : generate_minute_ohlcv events pool = .ok (some cs)) :
    (cs.map Candle.bucketStart).Pairwise (· < ·) ∧
    ∀ m : Int, m ∈ cs.map Candle.bucketStart ↔ b0 ≤ m ∧ m ≤ b1 ∧ m % 60 = 0 := by
  obtain ⟨pr, hts2, hcs⟩ := gen_rows h
  have htsv : ts = events.map tsVal := by
    rw [hts] at hts2
    exact Except.ok.inj hts2
  subst hcs
  have hmapbs : (buildCandles (events.map (rowOf pr))).map Candle.bucketStart =
      bucketList (sortRows (events.map (rowOf pr))) := by
    unfold buildCandles
    rw [ffill_map_bucketStart, List.map_map]
    rw [show (Candle.bucketStart ∘ mkCandle (sortRows (events.map (rowOf pr)))) =
      id from rfl, List.map_id]
  have hBM : (events.map (rowOf pr)).map (fun r => minuteFloor r.ts) =
      ts.map minuteFloor := by
    rw [List.map_map, htsv, List.map_map]
    rfl
  have hmin : (bucketMinutes (sortRows (events.map (rowOf pr)))).min? = some b0 := by
    unfold bucketMinutes
    rw [min?_congr_perm ((sortRows_perm _).map _), hBM]
    exact hb0
  have hmax : (bucketMinutes (sortRows (events.map (rowOf pr)))).max? = some b1 := by
    unfold bucketMinutes
    rw [max?_congr_perm ((sortRows_perm _).map _), hBM]
    exact hb1
  have hlist : bucketList (sortRows (events.map (rowOf pr))) =
      (List.range (((b1 - b0) / 60).toNat + 1)).map
        fun (i : Nat) => b0 + 60 * (i : Int) := by
    unfold bucketList
    rw [hmin, hmax]
  have hm0 : b0 % 60 = 0 := mod_of_mem_bucketMinutes (mem_of_min? hmin)
  have hm1 : b1 % 60 = 0 := mod_of_mem_bucketMinutes (mem_of_max? hmax)
  have hle : b0 ≤ b1 := min?_le_of_mem hmin (mem_of_max? hmax)
  rw [hmapbs, hlist]
  constructor
  · refine List.Pairwise.map _ ?_ (List.pairwise_lt_range _)
    intro a b hab
    show b0 + 60 * (a : Int) < b0 + 60 * (b : Int)
    omega
  · intro m
    rw [List.mem_map]
    constructor
    · rintro ⟨i, hi, rfl⟩
      rw [List.mem_range] at hi
      show b0 ≤ b0 + 60 * (i : Int) ∧ b0 + 60 * (i : Int) ≤ b1 ∧
        (b0 + 60 * (i : Int)) % 60 = 0
      omega
    · rintro ⟨h1, h2, h3⟩
      refine ⟨((m - b0) / 60).toNat, ?_, ?_⟩
      · rw [List.mem_range]
        omega
      · show b0 + 60 * ((((m - b0) / 60).toNat : Nat) : Int) = m
        omega

/-- C3 witness: on the concrete gap scenario the buckets are 0, 60, 120 —
strictly ascending and exactly the aligned minutes between the first and
last populated bucket. -/
theorem C3_bucket_range_witness :
    (([⟨0, some 100, some 110, some 100, some 110, 120, 2⟩,
       ⟨60, some 100, some 110, some 100, some 110, 0, 0⟩,
       ⟨120, some 90, some 90, some 90, some 90, 30, 1⟩] :
        List Candle).map Candle.bucketStart).Pairwise (· < ·) ∧
    ∀ m : Int, m ∈ ([⟨0, some 100, some 110, some 100, some 110, 120, 2⟩,
       ⟨60, some 100, some 110, some 100, some 110, 0, 0⟩,
       ⟨120, some 90, some 90, some 90, some 90, 30, 1⟩] :
        List Candle).map Candle.bucketStart ↔
      (0 : Int) ≤ m ∧ m ≤ 120 ∧ m % 60 = 0 :=
  C3_bucket_range exGap none [0, 30, 120]
    [⟨0, some 100, some 110, some 100, some 110, 120, 2⟩,
     ⟨60, some 100, some 110, some 100, some 110, 0, 0⟩,
     ⟨120, some 90, some 90, some 90, some 90, 30, 1⟩] 0 120
    rfl (by decide) (by decide) (by decide!)

/-- C7 (amended): when all event timestamps are distinct, the output is
invariant under permutation of the input collection; within each bucket,
open and close then follow the stable sort by timestamp.  (With tied
timestamps, open/close follow the input order, so unrestricted permutation
invariance fails — see the counterexample.) -/
theorem C7_perm_invariance (events events' : List TradeEvent)
    (pool : Option PoolInfo) (ts : List Int) (hp : events.Perm events')
    (hts : parsedTs events = .ok ts) (hnd : ts.Nodup) :
    generate_minute_ohlcv events pool = generate_minute_ohlcv events' pool := by
  obtain ⟨htsv, hval⟩ := parsedTs_ok hts
  have hval' : ∀ e ∈ events', ∃ t, e.timestamp = FieldVal.val t :=
    fun e he => hval e (hp.mem_iff.2 he)
  have htsE : parsedTs events = .ok (events.map tsVal) := parsedTs_of_val hval
  have htsE' : parsedTs events' = .ok (events'.map tsVal) := parsedTs_of_val hval'
  have hndE : (events.map tsVal).Nodup := htsv ▸ hnd
  have hTcol : hasTimestampCol events = hasTimestampCol events' :=
    any_congr_perm hp _
  have hUcol : hasAmountUSDCol events = hasAmountUSDCol events' :=
    any_congr_perm hp _
  have h0col : hasAmount0Col events = hasAmount0Col events' :=
    any_congr_perm hp _
  have h1col : hasAmount1Col events = hasAmount1Col events' :=
    any_congr_perm hp _
  have hsq : sqrtAvail events = sqrtAvail events' := any_congr_perm hp _
  have hemp : events.isEmpty = events'.isEmpty := by
    have hl := hp.length_eq
    cases events <;> cases events' <;> simp_all
  have hbuild : ∀ pr : TradeEvent → Option Rat,
      buildCandles (events.map (rowOf pr)) =
        buildCandles (events'.map (rowOf pr)) := by
    intro pr
    apply buildCandles_congr
    apply sortRows_congr (hp.map (rowOf pr))
    rw [List.map_map]
    exact hndE
  cases hE : events.isEmpty with
  | true =>
      have h1 : events = [] := List.isEmpty_iff.1 hE
      have h2 : events' = [] := List.isEmpty_iff.1 (by rw [← hemp]; exact hE)
      rw [h1, h2]
  | false =>
      have hE' : events'.isEmpty = false := hemp ▸ hE
      cases hT : hasTimestampCol events with
      | false =>
          have hT' : hasTimestampCol events' = false := hTcol ▸ hT
          unfold generate_minute_ohlcv
          simp [hE, hE', hT, hT']
      | true =>
          have hT' : hasTimestampCol events' = true := hTcol ▸ hT
          cases hU : hasAmountUSDCol events with
          | false =>
              have hU' : hasAmountUSDCol events' = false := hUcol ▸ hU
              unfold generate_minute_ohlcv
              simp [hE, hE', hT, hT', hU, hU']
          | true =>
              have hU' : hasAmountUSDCol events' = true := hUcol ▸ hU
              rw [gen_reduce pool hE hT hU htsE,
                gen_reduce pool hE' hT' hU' htsE']
              unfold priceColumn
              rw [hsq, h0col, h1col]
              cases hS : sqrtAvail events' with
              | true =>
                  simp only [hS, if_true]
                  rw [zipRows_map tsVal (sqrtPriceOf pool)
                      (fun e => toNum e.amountUSD) events,
                    zipRows_map tsVal (sqrtPriceOf pool)
                      (fun e => toNum e.amountUSD) events']
                  exact congrArg (fun l => Except.ok (some (buildCandles l)))
                    (congrArg _ rfl) |>.trans
                    (congrArg (fun l => Except.ok (some l))
                      (hbuild (sqrtPriceOf pool)))
              | false =>
                  cases hA : (hasAmount0Col events' && hasAmount1Col events') with
                  | false => simp [hS, hA]
                  | true =>
                      simp only [hS, hA, if_true, if_false, Bool.false_eq_true]
                      rw [zipRows_map tsVal ratioPriceOf
                          (fun e => toNum e.amountUSD) events,
                        zipRows_map tsVal ratioPriceOf
                          (fun e => toNum e.amountUSD) events']
                      exact congrArg (fun l => Except.ok (some l))
                        (hbuild ratioPriceOf)

/-- C7 witness: two trades with distinct timestamps yield the same candles
in either presentation order. -/
theorem C7_perm_invariance_witness :
    generate_minute_ohlcv exPerm1 none = generate_minute_ohlcv exPerm2 none :=
  C7_perm_invariance exPerm1 exPerm2 none [70, 10] (List.Perm.swap _ _ _)
    rfl (by decide)

end UniswapOHLCV
